import Mathlib

/-!
Shallow embedding of `src/index.tsx` (react-panel-manager-context).

The stateful React component `PanelManagerContextProvider` owns four pieces
of state, modelled here as one record `PMState`:
  - `panelRegistry`       : `Record<Key, OpenPanelFunction>` (a `useMemo` mutable map),
  - `panelExecutorStack`  : `PanelExecutor[]` (bottom first, top = last element),
  - `closingPanel`        : the transition slot (`ReactElement | null | undefined`),
  - promise executors     : each `open` call allocates one pending promise; we model
                            the promise store as a list of `FutureState` indexed by
                            allocation order, an index playing the role of the
                            promise reference returned by `open`.

JavaScript values that flow through `close(result)` are modelled by `JSVal`,
with `truthy` mirroring JS truthiness and `orNull` mirroring `result || null`.
Panel producers (`RegisterPanelFunction`) are modelled as functions from the
`props` value to the produced `PanelRep`; the bound `close`/`dismiss` members of
the argument object are the same shared functions for every panel (source
lines 143 and 162 both delegate to the single `close` callback), so they are
not part of the producer's input in the model.  A produced `ReactElement`'s
`key` is `Option String` (`none` = no key); the guard `if (!panel.key)` also
fires on the falsy empty-string key, which `keyTruthy` mirrors.
-/

/-- JSVal models the JavaScript values relevant to the panel protocol:
`undefined`, `null`, booleans, numbers, strings, and a stand-in `vobj` for
the (truthy) placeholder object `{}` used at registration time. -/
inductive JSVal where
  | vundefined
  | vnull
  | vbool (b : Bool)
  | vnum (n : Int)
  | vstr (s : String)
  | vobj
deriving DecidableEq, Repr

/-- JS truthiness for `JSVal` (`undefined`, `null`, `false`, `0`, `""` are falsy). -/
def truthy : JSVal → Bool
  | JSVal.vundefined => false
  | JSVal.vnull => false
  | JSVal.vbool b => b
  | JSVal.vnum n => n ≠ 0
  | JSVal.vstr s => s ≠ ""
  | JSVal.vobj => true

/-- Models the JavaScript expression `result || null` on line 120. -/
def orNull (v : JSVal) : JSVal := if truthy v then v else JSVal.vnull

/-- PanelRep models a produced `ReactElement<ManagedPanel>`: the panel
representation.  `key` is the React element key (`none` when the producer
supplied no key); `node` is the opaque renderable payload, used only to
tell representations apart. -/
structure PanelRep where
  key : Option String
  node : Nat
deriving DecidableEq, Repr

/-- Producer models `RegisterPanelFunction`: from the `props` member of the
bound-props object to the produced panel representation.  The `close` and
`dismiss` members are the same shared callbacks for every panel, so they
carry no information distinguishing one invocation from another. -/
abbrev Producer : Type := JSVal → PanelRep

/-- FutureState is the settlement state of one promise created by `open`. -/
inductive FutureState where
  | pending
  | resolved (v : JSVal)
deriving DecidableEq, Repr

/-- PanelEntry models `PanelExecutor<unknown, unknown>`: the pushed panel
representation together with (the index of) its promise executor. -/
structure PanelEntry where
  panel : PanelRep
  executorId : Nat
deriving DecidableEq, Repr

/-- OpenFn models one `OpenPanelFunction` closure built on line 171, closed
over the extracted key and the registering producer.  `id` is a fresh tag
allocated at construction, standing for JavaScript reference identity:
two closures constructed by distinct `register` calls are distinct
references even when built from the same key and producer. -/
structure OpenFn where
  id : Nat
  key : String
  producer : Producer

/-- PMState is the state owned by one `PanelManagerContextProvider` instance. -/
structure PMState where
  registry : List (String × OpenFn)
  stack : List PanelEntry
  closingPanel : Option PanelRep
  futures : List FutureState
  nextFnId : Nat

/-- Initial provider state: empty registry, empty stack, transition slot
never populated, no promises allocated. -/
def initialState : PMState :=
  { registry := [], stack := [], closingPanel := none, futures := [], nextFnId := 0 }

/-- Registry lookup, modelling `panelRegistry[key]` on a `Record`. -/
def lookupRegistry (r : List (String × OpenFn)) (k : String) : Option OpenFn :=
  match r with
  | [] => none
  | (k₀, f) :: rest => if k₀ = k then some f else lookupRegistry rest k

/-- Registry write, modelling `panelRegistry[key] = f` on a `Record`
(overwrite when present, insert otherwise). -/
def insertRegistry (r : List (String × OpenFn)) (k : String) (f : OpenFn) :
    List (String × OpenFn) :=
  match r with
  | [] => [(k, f)]
  | (k₀, f₀) :: rest =>
      if k₀ = k then (k, f) :: rest else (k₀, f₀) :: insertRegistry rest k f

/-- Settle the promise at index `i` with value `v`.  A JavaScript promise
settles at most once (later `resolve` calls are no-ops), which the
`pending` guard mirrors.  Out-of-range indices leave the store unchanged. -/
def resolveFuture (fs : List FutureState) (i : Nat) (v : JSVal) : List FutureState :=
  match fs[i]? with
  | some FutureState.pending => fs.set i (FutureState.resolved v)
  | _ => fs

/-- Settlement state of the promise at index `i`. -/
def futureAt (s : PMState) (i : Nat) : Option FutureState := s.futures[i]?

/-- Top of the panel stack (`stack.pop()` pops the last element). -/
def topEntry (s : PMState) : Option PanelEntry := s.stack.getLast?

/-- Models `close` (source lines 117-123): pop the last stack entry and
resolve its promise with `result || null`.  On an empty stack the source
pops `undefined` and then dereferences `.executor` on it, a TypeError;
the model returns `none` for that fault. -/
def close (result : JSVal) (s : PMState) : Option PMState :=
  match s.stack.getLast? with
  | none => none
  | some keyExecutor =>
      some { s with
              stack := s.stack.dropLast
              futures := resolveFuture s.futures keyExecutor.executorId (orNull result) }

/-- Models the bound `close` member handed to every producer (source lines
143 and 162): it is a thin wrapper around the one shared `close` callback,
identical for every panel. -/
def boundClose (value : JSVal) : PMState → Option PMState := close value

/-- Models `dismiss` (source lines 125-130): resolve every stacked entry's
promise with `null`, front of the list (bottom of the stack) first as
`forEach` does, then clear the stack. -/
def dismiss (s : PMState) : PMState :=
  { s with
      futures := s.stack.foldl
        (fun fs keyExecutor => resolveFuture fs keyExecutor.executorId JSVal.vnull)
        s.futures
      stack := [] }

/-- Models `open` (source lines 132-155); named `openPanel` because `open`
is a Lean keyword.  Allocates a fresh pending promise, invokes the producer
with the bound props to obtain the representation to display, seeds the
transition slot with that representation when the stack was empty, and
pushes the new entry.  Returns the promise index together with the new
state.  The `key` parameter is received but, as in the source body, unused. -/
def openPanel (key : String) (registerPanelFunction : Producer) (props : JSVal)
    (s : PMState) : Nat × PMState :=
  let execId := s.futures.length
  let panel := registerPanelFunction props
  let panelExecutor : PanelEntry := { panel := panel, executorId := execId }
  (execId,
   { s with
       futures := s.futures ++ [FutureState.pending]
       closingPanel := if s.stack.length = 0 then some panel else s.closingPanel
       stack := s.stack ++ [panelExecutor] })

/-- Invoke an `OpenFn` closure: applies `open` to the captured key and
producer, as the closure built on line 171 does. -/
def invokeOpenFn (f : OpenFn) (props : JSVal) (s : PMState) : Nat × PMState :=
  openPanel f.key f.producer props s

/-- RegisterError models the synchronous error thrown by `register`. -/
inductive RegisterError where
  | missingPanelKey
deriving DecidableEq, Repr

/-- Truthiness of a React element key: the guard `if (!panel.key)` fires when
the key is absent and also when it is the falsy empty string. -/
def keyTruthy : Option String → Bool
  | none => false
  | some s => s ≠ ""

/-- Models `register` (source lines 157-176): invoke the producer once with
the placeholder bound props (`props: {}`) purely for key extraction; throw
`MissingPanelKeyError` when the produced representation carries no truthy
key (state untouched, since the throw precedes the registry write); reuse
the stored open function when the key is present, otherwise construct a
fresh closure; write it back under the key and return it. -/
def register (registerPanelFunction : Producer) (s : PMState) :
    Except RegisterError OpenFn × PMState :=
  let panel := registerPanelFunction JSVal.vobj
  match panel.key with
  | none => (Except.error RegisterError.missingPanelKey, s)
  | some k =>
      if k = "" then (Except.error RegisterError.missingPanelKey, s)
      else
        match lookupRegistry s.registry k with
        | some f => (Except.ok f, { s with registry := insertRegistry s.registry k f })
        | none =>
            let f : OpenFn := { id := s.nextFnId, key := k, producer := registerPanelFunction }
            (Except.ok f,
             { s with
                 registry := insertRegistry s.registry k f
                 nextFnId := s.nextFnId + 1 })

/-- Models the `useEffect` derivation on source lines 110-115: when the
stack is non-empty the visible list is every entry's representation in
stack order; when empty it is the one-element list holding the transition
slot (`[closingPanel]`, literally `[undefined]` when never populated). -/
def visiblePanels (s : PMState) : List (Option PanelRep) :=
  if s.stack.length ≠ 0 then s.stack.map (fun keyExecutor => some keyExecutor.panel)
  else [s.closingPanel]

/-- Reachable states of one provider instance: the initial state, closed
under `register`, invoking `open`, a successful `close`, and `dismiss`. -/
inductive Reachable : PMState → Prop where
  | init : Reachable initialState
  | regStep (p : Producer) {s s₂ : PMState} (r : Except RegisterError OpenFn) :
      Reachable s → register p s = (r, s₂) → Reachable s₂
  | openStep (key : String) (p : Producer) (props : JSVal) {s : PMState} :
      Reachable s → Reachable (openPanel key p props s).2
  | closeStep (v : JSVal) {s s₂ : PMState} :
      Reachable s → close v s = some s₂ → Reachable s₂
  | dismissStep {s : PMState} : Reachable s → Reachable (dismiss s)

/-! ### Helper lemmas about the promise store and the registry -/

/-- Settling one promise does not change the number of allocated promises. -/
theorem resolveFuture_length (fs : List FutureState) (i : Nat) (v : JSVal) :
    (resolveFuture fs i v).length = fs.length := by
  unfold resolveFuture
  cases h : fs[i]? with
  | none => rfl
  | some st => cases st <;> simp

/-- Settling a pending promise records the value. -/
theorem resolveFuture_at_pending {fs : List FutureState} {i : Nat} (v : JSVal)
    (h : fs[i]? = some FutureState.pending) :
    (resolveFuture fs i v)[i]? = some (FutureState.resolved v) := by
  have hi : i < fs.length := by
    by_contra hge
    rw [List.getElem?_eq_none (Nat.le_of_not_lt hge)] at h
    exact Option.noConfusion h
  unfold resolveFuture
  rw [h]
  simp [List.getElem?_set_eq_of_lt, hi]

/-- Settling promise `i` leaves every other index untouched. -/
theorem resolveFuture_at_ne (fs : List FutureState) (i : Nat) (v : JSVal) {j : Nat}
    (h : j ≠ i) : (resolveFuture fs i v)[j]? = fs[j]? := by
  unfold resolveFuture
  cases hfs : fs[i]? with
  | none => rfl
  | some st =>
      cases st with
      | pending => exact List.getElem?_set_ne (fun he => h he.symm)
      | resolved w => rfl

/-- An already-settled promise is never re-settled (first resolution wins). -/
theorem resolveFuture_resolved_stable {fs : List FutureState} {j : Nat} {w : JSVal}
    (h : fs[j]? = some (FutureState.resolved w)) (i : Nat) (v : JSVal) :
    (resolveFuture fs i v)[j]? = some (FutureState.resolved w) := by
  by_cases hij : j = i
  · subst hij
    unfold resolveFuture
    rw [h]
    exact h
  · rw [resolveFuture_at_ne fs i v hij, h]

/-- One step of the `dismiss` fold. -/
def dismissStepFn (fs : List FutureState) (keyExecutor : PanelEntry) : List FutureState :=
  resolveFuture fs keyExecutor.executorId JSVal.vnull

/-- The `dismiss` fold leaves untouched every promise index owned by no
entry of the folded list. -/
theorem foldResolve_at_notin (es : List PanelEntry) (fs : List FutureState) {j : Nat}
    (h : ∀ e ∈ es, e.executorId ≠ j) :
    (es.foldl dismissStepFn fs)[j]? = fs[j]? := by
  induction es generalizing fs with
  | nil => rfl
  | cons e rest ih =>
      rw [List.foldl_cons,
        ih (dismissStepFn fs e) (fun x hx => h x (List.mem_cons_of_mem e hx))]
      exact resolveFuture_at_ne fs e.executorId JSVal.vnull
        (fun he => h e (List.mem_cons_self e rest) he.symm)

/-- A settled promise stays settled with the same value across the whole
`dismiss` fold. -/
theorem foldResolve_resolved_stable (es : List PanelEntry) {fs : List FutureState}
    {j : Nat} {w : JSVal} (h : fs[j]? = some (FutureState.resolved w)) :
    (es.foldl dismissStepFn fs)[j]? = some (FutureState.resolved w) := by
  induction es generalizing fs with
  | nil => exact h
  | cons e rest ih =>
      rw [List.foldl_cons]
      exact ih (resolveFuture_resolved_stable h e.executorId JSVal.vnull)

/-- Every entry of the folded list whose promise was pending ends up
resolved with `null` after the `dismiss` fold. -/
theorem foldResolve_at_mem {es : List PanelEntry} {fs : List FutureState}
    {e : PanelEntry} (hmem : e ∈ es)
    (hpend : fs[e.executorId]? = some FutureState.pending) :
    (es.foldl dismissStepFn fs)[e.executorId]? = some (FutureState.resolved JSVal.vnull) := by
  induction es generalizing fs with
  | nil => cases hmem
  | cons e₀ rest ih =>
      rw [List.foldl_cons]
      by_cases hid : e₀.executorId = e.executorId
      · have : (dismissStepFn fs e₀)[e.executorId]? =
            some (FutureState.resolved JSVal.vnull) := by
          unfold dismissStepFn
          rw [hid]
          exact resolveFuture_at_pending JSVal.vnull hpend
        exact foldResolve_resolved_stable rest this
      · rcases List.mem_cons.mp hmem with he | hrest
        · exact absurd (he ▸ rfl) hid
        · have : (dismissStepFn fs e₀)[e.executorId]? = some FutureState.pending := by
            unfold dismissStepFn
            rw [resolveFuture_at_ne fs e₀.executorId JSVal.vnull
              (fun hj => hid hj.symm), hpend]
          exact ih hrest this

/-- Looking a key up right after writing it finds the written closure. -/
theorem lookupRegistry_insert_self (r : List (String × OpenFn)) (k : String) (f : OpenFn) :
    lookupRegistry (insertRegistry r k f) k = some f := by
  induction r with
  | nil => simp [insertRegistry, lookupRegistry]
  | cons p rest ih =>
      obtain ⟨k₀, f₀⟩ := p
      by_cases hk : k₀ = k
      · subst hk
        simp [insertRegistry, lookupRegistry]
      · simp [insertRegistry, lookupRegistry, hk, ih]

/-- Writing back the closure a lookup just returned leaves the registry
unchanged (the `panelRegistry[panel.key] = openPanelFunction` write on the
re-registration path is a no-op). -/
theorem insertRegistry_lookup_eq {r : List (String × OpenFn)} {k : String} {f : OpenFn}
    (h : lookupRegistry r k = some f) : insertRegistry r k f = r := by
  induction r with
  | nil => simp [lookupRegistry] at h
  | cons p rest ih =>
      obtain ⟨k₀, f₀⟩ := p
      by_cases hk : k₀ = k
      · subst hk
        have h₂ : f₀ = f := by simpa [lookupRegistry] using h
        subst h₂
        simp [insertRegistry]
      · simp only [lookupRegistry, if_neg hk] at h
        simp [insertRegistry, hk, ih h]

/-! ### Unfolding lemmas for the operations -/

/-- The promise index returned by `open` is the allocation counter. -/
theorem openPanel_fst (key : String) (p : Producer) (props : JSVal) (s : PMState) :
    (openPanel key p props s).1 = s.futures.length := rfl

/-- Explicit form of the state produced by `open`. -/
theorem openPanel_snd (key : String) (p : Producer) (props : JSVal) (s : PMState) :
    (openPanel key p props s).2 =
      { s with
          futures := s.futures ++ [FutureState.pending]
          closingPanel := if s.stack.length = 0 then some (p props) else s.closingPanel
          stack := s.stack ++ [{ panel := p props, executorId := s.futures.length }] } := rfl

/-- Explicit form of a successful `close` on a stack whose top is `top`. -/
theorem close_concat {s : PMState} {front : List PanelEntry} {top : PanelEntry}
    (h : s.stack = front ++ [top]) (v : JSVal) :
    close v s =
      some { s with
              stack := front
              futures := resolveFuture s.futures top.executorId (orNull v) } := by
  unfold close
  rw [h, List.getLast?_concat, List.dropLast_concat]

/-- `register` never touches the stack, the transition slot, or the
promise store. -/
theorem register_preserves_display (p : Producer) (s : PMState) :
    (register p s).2.stack = s.stack ∧ (register p s).2.closingPanel = s.closingPanel ∧
      (register p s).2.futures = s.futures := by
  cases hkey : (p JSVal.vobj).key with
  | none => simp [register, hkey]
  | some k =>
      by_cases hk : k = ""
      · simp [register, hkey, hk]
      · cases hl : lookupRegistry s.registry k with
        | none => simp [register, hkey, hk, hl]
        | some f => simp [register, hkey, hk, hl]

/-- Invariant of reachable states: whenever the stack is non-empty, the
transition slot holds the representation of the BOTTOM stack entry (the
panel that was opened while the stack was empty), because `open` writes the
slot only on the empty-to-non-empty transition and `close`/`dismiss` never
write it. -/
theorem closingPanel_eq_bottom {s : PMState} (hr : Reachable s) :
    ∀ e rest, s.stack = e :: rest → s.closingPanel = some e.panel := by
  induction hr with
  | init =>
      intro e rest h
      exact absurd h (by simp [initialState])
  | regStep p r hr₀ hreg ih =>
      rename_i t t₂
      intro e rest h
      obtain ⟨hst, hcl, _⟩ := register_preserves_display p t
      rw [hreg] at hst hcl
      rw [hcl]
      exact ih e rest (hst.symm ▸ h)
  | openStep key p props hr₀ ih =>
      rename_i t
      intro e rest h
      rw [openPanel_snd] at h ⊢
      simp only at h ⊢
      cases hstack : t.stack with
      | nil =>
          rw [hstack] at h
          simp only [List.nil_append] at h
          cases h
          simp [hstack]
      | cons e₀ rest₀ =>
          rw [hstack] at h
          have he : e = e₀ := by
            have h₂ := congrArg List.head? h
            simp at h₂
            exact h₂.symm
          simp only [List.length_cons, if_neg (Nat.succ_ne_zero rest₀.length)]
          rw [he]
          exact ih e₀ rest₀ hstack
  | closeStep v hr₀ hcl ih =>
      rename_i t t₂
      intro e rest h
      rcases List.eq_nil_or_concat t.stack with hnil | ⟨front, top, hconcat⟩
      · rw [close, hnil] at hcl
        simp at hcl
      · rw [List.concat_eq_append] at hconcat
        rw [close_concat hconcat v] at hcl
        have hstack₂ : t₂.stack = front := by
          cases hcl
          rfl
        have hclosing₂ : t₂.closingPanel = t.closingPanel := by
          cases hcl
          rfl
        rw [hclosing₂]
        rw [h] at hstack₂
        exact ih e (rest ++ [top]) (by rw [hconcat, ← hstack₂]; simp)
  | dismissStep hr₀ ih =>
      intro e rest h
      exact absurd h (by simp [dismiss])

/-! ### Concrete fixtures for witnesses and counterexamples -/

/-- Producer yielding a panel representation with key `a`. -/
def prodA : Producer := fun _ => { key := some "a", node := 1 }

/-- Producer yielding a panel representation with key `b`. -/
def prodB : Producer := fun _ => { key := some "b", node := 2 }

/-- Producer yielding a panel representation with key `c`. -/
def prodC : Producer := fun _ => { key := some "c", node := 3 }

/-- Producer yielding a representation with no key at all. -/
def prodNoKey : Producer := fun _ => { key := none, node := 7 }

/-- State after opening panel `a` in a fresh provider. -/
def sA : PMState := (openPanel "a" prodA JSVal.vundefined initialState).2

/-- State after opening `a` then `b` (depth 2, `b` on top). -/
def sAB : PMState := (openPanel "b" prodB JSVal.vundefined sA).2

/-- State after opening `a`, `b`, `c` (depth 3, `c` on top). -/
def sABC : PMState := (openPanel "c" prodC JSVal.vundefined sAB).2

/-- The depth-1 fixture is a reachable provider state. -/
theorem reachable_sA : Reachable sA :=
  Reachable.openStep "a" prodA JSVal.vundefined Reachable.init

/-- The depth-2 fixture is a reachable provider state. -/
theorem reachable_sAB : Reachable sAB :=
  Reachable.openStep "b" prodB JSVal.vundefined reachable_sA

/-- The `result || null` coercion can never produce `undefined`. -/
theorem orNull_ne_undefined (v : JSVal) : orNull v ≠ JSVal.vundefined := by
  unfold orNull
  split
  · rename_i ht
    intro hc
    subst hc
    simp [truthy] at ht
  · simp

/-! ### Claim theorems -/

/-- C8: `close` invoked with the stack empty has no guard and faults: the
source pops `undefined` from the empty array and dereferences `.executor`
on it (a TypeError), rather than no-op or explicit error; the embedding
returns `none` (no resulting state) exactly on that path. -/
theorem close_on_empty_stack_faults (v : JSVal) (s : PMState) (h : s.stack = []) :
    close v s = none := by
  unfold close
  rw [h]
  rfl

theorem close_on_empty_stack_faults_witness :
    initialState.stack = [] ∧ close JSVal.vundefined initialState = none :=
  ⟨rfl, close_on_empty_stack_faults JSVal.vundefined initialState rfl⟩

/-- C3: on a non-empty stack, `close value` resolves the top entry's future
with `value` when truthy and with `null` for every falsy argument
(`undefined` from `close()`, `0`, `""`, ...): the resolved value is never
the falsy argument itself and never `undefined`. -/
theorem close_falsy_coercion {s : PMState} {front : List PanelEntry}
    {top : PanelEntry} (hstack : s.stack = front ++ [top])
    (hpend : futureAt s top.executorId = some FutureState.pending) (v : JSVal) :
    ∃ s₂, close v s = some s₂
      ∧ (truthy v = true → futureAt s₂ top.executorId = some (FutureState.resolved v))
      ∧ (truthy v = false →
          futureAt s₂ top.executorId = some (FutureState.resolved JSVal.vnull))
      ∧ futureAt s₂ top.executorId ≠ some (FutureState.resolved JSVal.vundefined)
      ∧ (v = JSVal.vundefined ∨ v = JSVal.vnum 0 ∨ v = JSVal.vstr "" →
          futureAt s₂ top.executorId = some (FutureState.resolved JSVal.vnull)) := by
  refine ⟨_, close_concat hstack v, ?_, ?_, ?_, ?_⟩
  all_goals
    have hres : futureAt
        { s with stack := front
                 futures := resolveFuture s.futures top.executorId (orNull v) }
        top.executorId = some (FutureState.resolved (orNull v)) :=
      resolveFuture_at_pending (orNull v) hpend
  · intro ht
    rw [hres]
    simp [orNull, ht]
  · intro hf
    rw [hres]
    simp [orNull, hf]
  · rw [hres]
    intro hcontra
    injection hcontra with h₂
    injection h₂ with h₃
    exact orNull_ne_undefined v h₃
  · intro hv
    rw [hres]
    rcases hv with h₀ | h₀ | h₀ <;> subst h₀ <;> simp [orNull, truthy]

theorem close_falsy_coercion_witness :
    sA.stack = [] ++ [{ panel := { key := some "a", node := 1 }, executorId := 0 }]
    ∧ futureAt sA 0 = some FutureState.pending
    ∧ ∃ s₂, close (JSVal.vnum 0) sA = some s₂
        ∧ (truthy (JSVal.vnum 0) = true →
            futureAt s₂ 0 = some (FutureState.resolved (JSVal.vnum 0)))
        ∧ (truthy (JSVal.vnum 0) = false →
            futureAt s₂ 0 = some (FutureState.resolved JSVal.vnull))
        ∧ futureAt s₂ 0 ≠ some (FutureState.resolved JSVal.vundefined)
        ∧ (JSVal.vnum 0 = JSVal.vundefined ∨ JSVal.vnum 0 = JSVal.vnum 0 ∨
            JSVal.vnum 0 = JSVal.vstr "" →
            futureAt s₂ 0 = some (FutureState.resolved JSVal.vnull)) :=
  ⟨rfl, rfl,
    @close_falsy_coercion sA [] { panel := { key := some "a", node := 1 }, executorId := 0 }
      (by decide) (by decide) (JSVal.vnum 0)⟩

/-- C2: `dismiss` resolves each stacked entry's still-pending promise with
`null` and clears the stack to empty; promises owned by no stack entry are
untouched; the bottom entry is processed before the rest (`forEach` runs
front to back, i.e. bottom to top); on an empty stack nothing is resolved
and the state is unchanged. -/
theorem dismiss_resolves_all_with_null (s : PMState) :
    (dismiss s).stack = []
    ∧ (∀ e ∈ s.stack, futureAt s e.executorId = some FutureState.pending →
        futureAt (dismiss s) e.executorId = some (FutureState.resolved JSVal.vnull))
    ∧ (∀ i, (∀ e ∈ s.stack, e.executorId ≠ i) → futureAt (dismiss s) i = futureAt s i)
    ∧ (∀ e rest, s.stack = e :: rest →
        dismiss s = dismiss { s with
          stack := rest
          futures := resolveFuture s.futures e.executorId JSVal.vnull })
    ∧ (s.stack = [] → dismiss s = s) := by
  have hfold : (dismiss s).futures = s.stack.foldl dismissStepFn s.futures := rfl
  refine ⟨rfl, ?_, ?_, ?_, ?_⟩
  · intro e hmem hpend
    show (dismiss s).futures[e.executorId]? = _
    rw [hfold]
    exact foldResolve_at_mem hmem hpend
  · intro i hnot
    show (dismiss s).futures[i]? = s.futures[i]?
    rw [hfold]
    exact foldResolve_at_notin s.stack s.futures hnot
  · intro e rest hst
    unfold dismiss
    rw [hst]
    rfl
  · intro h
    cases s with
    | mk reg st cp fu n =>
        replace h : st = [] := h
        subst h
        rfl

theorem dismiss_resolves_all_with_null_witness :
    (dismiss sABC).stack = []
    ∧ futureAt (dismiss sABC) 0 = some (FutureState.resolved JSVal.vnull)
    ∧ futureAt (dismiss sABC) 1 = some (FutureState.resolved JSVal.vnull)
    ∧ futureAt (dismiss sABC) 2 = some (FutureState.resolved JSVal.vnull)
    ∧ dismiss initialState = initialState := by
  refine ⟨(dismiss_resolves_all_with_null sABC).1, ?_, ?_, ?_,
    (dismiss_resolves_all_with_null initialState).2.2.2.2 rfl⟩
  · exact (dismiss_resolves_all_with_null sABC).2.1
      { panel := { key := some "a", node := 1 }, executorId := 0 } (by decide) (by decide)
  · exact (dismiss_resolves_all_with_null sABC).2.1
      { panel := { key := some "b", node := 2 }, executorId := 1 } (by decide) (by decide)
  · exact (dismiss_resolves_all_with_null sABC).2.1
      { panel := { key := some "c", node := 3 }, executorId := 2 } (by decide) (by decide)

/-- C1: opening panel A then panel B on an empty stack yields depth 2 with
B's entry on top and both futures pending; `close v` then resolves B's
future with `v || null`, after which the stack has depth 1 holding exactly
A's entry and A's future is still pending. -/
theorem open_open_close_behavior (s : PMState) (hs : s.stack = [])
    (kA kB : String) (pA pB : Producer) (prA prB v : JSVal) :
    let idA := (openPanel kA pA prA s).1
    let s₁ := (openPanel kA pA prA s).2
    let idB := (openPanel kB pB prB s₁).1
    let s₂ := (openPanel kB pB prB s₁).2
    s₂.stack.length = 2
    ∧ topEntry s₂ = some { panel := pB prB, executorId := idB }
    ∧ futureAt s₂ idA = some FutureState.pending
    ∧ futureAt s₂ idB = some FutureState.pending
    ∧ ∃ s₃, close v s₂ = some s₃
        ∧ futureAt s₃ idB = some (FutureState.resolved (orNull v))
        ∧ s₃.stack = [{ panel := pA prA, executorId := idA }]
        ∧ futureAt s₃ idA = some FutureState.pending := by
  cases s with
  | mk reg st cp fu n =>
      replace hs : st = [] := hs
      subst hs
      intro idA s₁ idB s₂
      have hidA : idA = fu.length := rfl
      have hstack₂ : s₂.stack =
          [{ panel := pA prA, executorId := idA }] ++
            [{ panel := pB prB, executorId := idB }] := rfl
      have hfu₂ : s₂.futures = (fu ++ [FutureState.pending]) ++ [FutureState.pending] := rfl
      have hpendA : futureAt s₂ idA = some FutureState.pending := by
        show s₂.futures[idA]? = _
        rw [hfu₂, hidA]
        rw [List.getElem?_append_left (by simp)]
        simp
      have hpendB : futureAt s₂ idB = some FutureState.pending := by
        show s₂.futures[idB]? = _
        rw [hfu₂]
        have h₂ : idB = (fu ++ [FutureState.pending]).length := rfl
        rw [h₂]
        exact List.getElem?_concat_length _ _
      have hne : idA ≠ idB := by
        rw [hidA]
        show fu.length ≠ (fu ++ [FutureState.pending]).length
        simp
      refine ⟨rfl, rfl, hpendA, hpendB, ?_⟩
      refine ⟨_, close_concat hstack₂ v, ?_, rfl, ?_⟩
      · exact resolveFuture_at_pending (orNull v) hpendB
      · show (resolveFuture s₂.futures idB (orNull v))[idA]? = _
        rw [resolveFuture_at_ne s₂.futures idB (orNull v) hne]
        exact hpendA

theorem open_open_close_behavior_witness :
    initialState.stack = []
    ∧ (let idA := (openPanel "a" prodA JSVal.vundefined initialState).1
       let s₁ := (openPanel "a" prodA JSVal.vundefined initialState).2
       let idB := (openPanel "b" prodB JSVal.vundefined s₁).1
       let s₂ := (openPanel "b" prodB JSVal.vundefined s₁).2
       s₂.stack.length = 2
       ∧ topEntry s₂ = some { panel := prodB JSVal.vundefined, executorId := idB }
       ∧ futureAt s₂ idA = some FutureState.pending
       ∧ futureAt s₂ idB = some FutureState.pending
       ∧ ∃ s₃, close (JSVal.vbool true) s₂ = some s₃
           ∧ futureAt s₃ idB = some (FutureState.resolved (orNull (JSVal.vbool true)))
           ∧ s₃.stack = [{ panel := prodA JSVal.vundefined, executorId := idA }]
           ∧ futureAt s₃ idA = some FutureState.pending) :=
  ⟨rfl, open_open_close_behavior initialState rfl "a" "b" prodA prodB
    JSVal.vundefined JSVal.vundefined (JSVal.vbool true)⟩

/-- Second producer under key `a`, distinguishable from `prodA` by payload. -/
def prodA2 : Producer := fun _ => { key := some "a", node := 99 }

/-- A `register` call whose key is already present returns the stored
closure and leaves the state unchanged (the write-back is a no-op). -/
theorem register_found {s : PMState} {p : Producer} {k : String} {f : OpenFn}
    (hkey : (p JSVal.vobj).key = some k) (hk : k ≠ "")
    (hl : lookupRegistry s.registry k = some f) :
    register p s = (Except.ok f, s) := by
  simp [register, hkey, hk, hl, insertRegistry_lookup_eq hl]

/-- A `register` call under an absent key constructs and stores a fresh
closure tagged with the current allocation counter. -/
theorem register_new {s : PMState} {p : Producer} {k : String}
    (hkey : (p JSVal.vobj).key = some k) (hk : k ≠ "")
    (hl : lookupRegistry s.registry k = none) :
    register p s =
      (Except.ok { id := s.nextFnId, key := k, producer := p },
       { s with
           registry := insertRegistry s.registry k
             { id := s.nextFnId, key := k, producer := p }
           nextFnId := s.nextFnId + 1 }) := by
  simp [register, hkey, hk, hl]

/-- C6: two `register` calls whose producers' placeholder representations
carry the same (truthy) key return the identical open-function value — the
same reference tag — and the second call leaves the state unchanged:
repeated registration under one key never creates two distinct open
functions. -/
theorem register_idempotent (s : PMState) (p₁ p₂ : Producer) (k : String)
    (hk : k ≠ "") (h₁ : (p₁ JSVal.vobj).key = some k)
    (h₂ : (p₂ JSVal.vobj).key = some k) :
    ∃ f s₁, register p₁ s = (Except.ok f, s₁)
      ∧ register p₂ s₁ = (Except.ok f, s₁) := by
  cases hl : lookupRegistry s.registry k with
  | some f₀ =>
      exact ⟨f₀, s, register_found h₁ hk hl, register_found h₂ hk hl⟩
  | none =>
      refine ⟨{ id := s.nextFnId, key := k, producer := p₁ }, _,
        register_new h₁ hk hl, ?_⟩
      exact register_found h₂ hk (lookupRegistry_insert_self _ _ _)

theorem register_idempotent_witness :
    ("a" : String) ≠ ""
    ∧ (prodA JSVal.vobj).key = some "a"
    ∧ (prodA2 JSVal.vobj).key = some "a"
    ∧ ∃ f s₁, register prodA initialState = (Except.ok f, s₁)
        ∧ register prodA2 s₁ = (Except.ok f, s₁) :=
  ⟨by decide, rfl, rfl,
    register_idempotent initialState prodA prodA2 "a" (by decide) rfl rfl⟩

/-- C7: when the producer's immediately-invoked placeholder call yields a
representation carrying no key, `register` fails synchronously with the
missing-key error and returns the state unchanged: nothing is stored in
the registry (the throw precedes the registry write). -/
theorem register_missing_key (s : PMState) (p : Producer)
    (h : (p JSVal.vobj).key = none) :
    register p s = (Except.error RegisterError.missingPanelKey, s) := by
  simp [register, h]

theorem register_missing_key_witness :
    (prodNoKey JSVal.vobj).key = none
    ∧ register prodNoKey initialState =
        (Except.error RegisterError.missingPanelKey, initialState) :=
  ⟨rfl, register_missing_key initialState prodNoKey rfl⟩

/-- C10: registering a second producer under an already-present key returns
the open function stored at first registration, still closed over the
original producer; every subsequent invocation of that open function pushes
the ORIGINAL producer's representation onto the stack, so the
later-supplied producer is never used for display (its placeholder call
serves only key extraction). -/
theorem reregister_keeps_original_producer (s : PMState) (p₁ p₂ : Producer)
    (k : String) (hk : k ≠ "") (h₁ : (p₁ JSVal.vobj).key = some k)
    (h₂ : (p₂ JSVal.vobj).key = some k)
    (hfresh : lookupRegistry s.registry k = none) :
    ∃ f s₁, register p₁ s = (Except.ok f, s₁)
      ∧ f.producer = p₁
      ∧ register p₂ s₁ = (Except.ok f, s₁)
      ∧ ∀ props t, topEntry (invokeOpenFn f props t).2 =
          some { panel := p₁ props, executorId := t.futures.length } := by
  refine ⟨{ id := s.nextFnId, key := k, producer := p₁ }, _,
    register_new h₁ hk hfresh, rfl,
    register_found h₂ hk (lookupRegistry_insert_self _ _ _), ?_⟩
  intro props t
  show (t.stack ++
      [({ panel := p₁ props, executorId := t.futures.length } : PanelEntry)]).getLast? = _
  exact List.getLast?_concat _

theorem reregister_keeps_original_producer_witness :
    ("a" : String) ≠ ""
    ∧ (prodA JSVal.vobj).key = some "a"
    ∧ (prodA2 JSVal.vobj).key = some "a"
    ∧ lookupRegistry initialState.registry "a" = none
    ∧ ∃ f s₁, register prodA initialState = (Except.ok f, s₁)
        ∧ f.producer = prodA
        ∧ register prodA2 s₁ = (Except.ok f, s₁)
        ∧ ∀ props t, topEntry (invokeOpenFn f props t).2 =
            some { panel := prodA props, executorId := t.futures.length } :=
  ⟨by decide, rfl, rfl, rfl,
    reregister_keeps_original_producer initialState prodA prodA2 "a" (by decide) rfl rfl rfl⟩

/-- C5 counterexample: in the depth-2 state `sAB` — entry A (promise 0) at
the bottom, entry B (promise 1) on top — the bound close received by A's
producer is the single shared `boundClose` function; invoking it resolves
B's future with the value and leaves A's own future pending, refuting the
claim that the bound close passed to a panel's producer resolves only that
panel's own future. -/
theorem boundClose_own_future_counterexample :
    sAB.stack.map PanelEntry.executorId = [0, 1]
    ∧ topEntry sAB = some { panel := { key := some "b", node := 2 }, executorId := 1 }
    ∧ (boundClose (JSVal.vbool true) sAB).map (fun s₂ => futureAt s₂ 1) =
        some (some (FutureState.resolved (JSVal.vbool true)))
    ∧ (boundClose (JSVal.vbool true) sAB).map (fun s₂ => futureAt s₂ 0) =
        some (some FutureState.pending) := by
  exact ⟨by decide, by decide, by decide, by decide⟩

/-- C5 (amended): the bound close handed to every producer is one shared
function; invoking it pops the CURRENT TOP entry and resolves that entry's
future with `value || null`, whichever panel's producer received the
function, and leaves every other promise index untouched.  Consequently a
panel's own future is resolved via its bound close exactly when that panel
is the top, and a panel that is not the top cannot resolve its own future
out of order (its bound close resolves the top's future instead). -/
theorem boundClose_resolves_current_top {s : PMState} {front : List PanelEntry}
    {top : PanelEntry} (hstack : s.stack = front ++ [top])
    (hpend : futureAt s top.executorId = some FutureState.pending) (v : JSVal) :
    ∃ s₂, boundClose v s = some s₂
      ∧ futureAt s₂ top.executorId = some (FutureState.resolved (orNull v))
      ∧ (∀ j, j ≠ top.executorId → futureAt s₂ j = futureAt s j)
      ∧ s₂.stack = front := by
  refine ⟨_, close_concat hstack v,
    resolveFuture_at_pending (orNull v) hpend, ?_, rfl⟩
  intro j hj
  show (resolveFuture s.futures top.executorId (orNull v))[j]? = s.futures[j]?
  exact resolveFuture_at_ne s.futures top.executorId (orNull v) hj

theorem boundClose_resolves_current_top_witness :
    sAB.stack = [{ panel := { key := some "a", node := 1 }, executorId := 0 }] ++
        [{ panel := { key := some "b", node := 2 }, executorId := 1 }]
    ∧ futureAt sAB 1 = some FutureState.pending
    ∧ ∃ s₂, boundClose (JSVal.vnum 7) sAB = some s₂
        ∧ futureAt s₂ 1 = some (FutureState.resolved (orNull (JSVal.vnum 7)))
        ∧ (∀ j, j ≠ 1 → futureAt s₂ j = futureAt sAB j)
        ∧ s₂.stack = [{ panel := { key := some "a", node := 1 }, executorId := 0 }] :=
  ⟨by decide, by decide,
    @boundClose_resolves_current_top sAB
      [{ panel := { key := some "a", node := 1 }, executorId := 0 }]
      { panel := { key := some "b", node := 2 }, executorId := 1 }
      (by decide) (by decide) (JSVal.vnum 7)⟩

/-- C4 counterexample: in the reachable depth-2 state `sAB`, the panel on
top immediately before the stack is cleared is B's representation, but
after `dismiss` the transition slot holds A's representation — the bottom
entry, opened when the stack was empty — and the visible-panel derivation
yields A's representation, not the last-displayed top B. -/
theorem transitionSlot_dismiss_counterexample :
    topEntry sAB = some { panel := { key := some "b", node := 2 }, executorId := 1 }
    ∧ (dismiss sAB).stack = []
    ∧ (dismiss sAB).closingPanel = some { key := some "a", node := 1 }
    ∧ (dismiss sAB).closingPanel ≠ some { key := some "b", node := 2 }
    ∧ visiblePanels (dismiss sAB) = [some { key := some "a", node := 1 }] := by
  exact ⟨by decide, by decide, by decide, by decide, by decide⟩

/-- C4 (amended): in any reachable state with a non-empty stack, the
transition slot holds the BOTTOM entry's representation (the panel opened
while the stack was empty).  When the stack returns to depth 0, the slot
keeps that bottom representation: for `close` of the last remaining entry
the bottom entry IS the entry on top before clearing, so the original
claim's reading holds there; for `dismiss` the slot likewise holds the
bottom entry's representation (for depth ≥ 2 this is not the panel that
was on top).  The representation stays retrievable through the
visible-panel derivation while the stack is empty (further `dismiss` calls
keep it) until the next `open` overwrites the slot. -/
theorem transitionSlot_after_clear {s : PMState} (hr : Reachable s)
    {e : PanelEntry} {rest : List PanelEntry} (hstack : s.stack = e :: rest)
    (v : JSVal) :
    (dismiss s).closingPanel = some e.panel
    ∧ visiblePanels (dismiss s) = [some e.panel]
    ∧ (dismiss (dismiss s)).closingPanel = some e.panel
    ∧ (rest = [] → topEntry s = some e
        ∧ ∃ s₂, close v s = some s₂
          ∧ s₂.closingPanel = some e.panel
          ∧ visiblePanels s₂ = [some e.panel])
    ∧ (∀ k p props,
        ((openPanel k p props (dismiss s)).2).closingPanel = some (p props)) := by
  have hbottom : s.closingPanel = some e.panel := closingPanel_eq_bottom hr e rest hstack
  have hdcp : (dismiss s).closingPanel = s.closingPanel := rfl
  refine ⟨hdcp.trans hbottom, ?_, hdcp.trans hbottom, ?_, ?_⟩
  · show visiblePanels (dismiss s) = _
    unfold visiblePanels
    rw [if_neg (by simp [dismiss])]
    rw [hdcp.trans hbottom]
  · intro hrest
    subst hrest
    have hconcat : s.stack = [] ++ [e] := by simpa using hstack
    refine ⟨?_, _, close_concat hconcat v, hbottom, ?_⟩
    · show s.stack.getLast? = some e
      rw [hconcat]
      exact List.getLast?_concat _
    · unfold visiblePanels
      rw [if_neg (by simp)]
      exact congrArg (fun x => [x]) hbottom
  · intro k p props
    rw [openPanel_snd]
    simp [dismiss]

theorem transitionSlot_after_clear_witness :
    sA.stack = { panel := { key := some "a", node := 1 }, executorId := 0 } :: []
    ∧ ((dismiss sA).closingPanel = some { key := some "a", node := 1 }
      ∧ visiblePanels (dismiss sA) = [some { key := some "a", node := 1 }]
      ∧ (dismiss (dismiss sA)).closingPanel = some { key := some "a", node := 1 }
      ∧ (([] : List PanelEntry) = [] →
          topEntry sA = some { panel := { key := some "a", node := 1 }, executorId := 0 }
          ∧ ∃ s₂, close (JSVal.vnum 5) sA = some s₂
            ∧ s₂.closingPanel = some { key := some "a", node := 1 }
            ∧ visiblePanels s₂ = [some { key := some "a", node := 1 }])
      ∧ (∀ k p props,
          ((openPanel k p props (dismiss sA)).2).closingPanel = some (p props))) :=
  ⟨by decide,
    @transitionSlot_after_clear sA reachable_sA
      { panel := { key := some "a", node := 1 }, executorId := 0 } []
      (by decide) (JSVal.vnum 5)⟩

/-- C9: the visible-panel derivation yields, for a non-empty stack, exactly
the ordered bottom-to-top sequence of EVERY entry's representation (not
only the top); for an empty stack it yields the singleton holding the
last-known transition-slot value, which carries the slot's representation
when populated and no representation at all (the singleton holds
`undefined`, so nothing renders) when never populated. -/
theorem visiblePanels_derivation (s : PMState) :
    (s.stack ≠ [] → visiblePanels s = s.stack.map (fun e => some e.panel))
    ∧ (s.stack = [] → visiblePanels s = [s.closingPanel]
        ∧ (visiblePanels s).filterMap id = s.closingPanel.toList) := by
  constructor
  · intro h
    unfold visiblePanels
    rw [if_pos (by simpa using h)]
  · intro h
    have hvp : visiblePanels s = [s.closingPanel] := by
      unfold visiblePanels
      rw [if_neg (by simp [h])]
    refine ⟨hvp, ?_⟩
    rw [hvp]
    cases s.closingPanel <;> simp

theorem visiblePanels_derivation_witness :
    visiblePanels sAB =
      [some { key := some "a", node := 1 }, some { key := some "b", node := 2 }]
    ∧ visiblePanels initialState = [none] := by
  constructor
  · rw [(visiblePanels_derivation sAB).1 (by decide)]
    decide
  · rw [((visiblePanels_derivation initialState).2 rfl).1]
    rfl
